import Mathlib

/-!
Verification of the rekall entity layer (rekall/entity.py and
rekall/components.py) as a shallow embedding in Lean.

Python dictionaries are embedded as association lists, Python sets as
duplicate-free lists with membership-based operations, and raised
exceptions as the Except monad.  The modules rekall/utils.py and
rekall/obj.py are not part of the sources; the handful of helpers the
entity layer takes from them (MergeNamedTuples, Superposition,
NoneObject, BaseObjectIdentity) are modelled from the specification and
are marked as such in their doc comments.
-/

namespace Rekall

/-- Association-list lookup, the embedding of Python dict indexing and
dict.get; first binding of the key wins. -/
def aFind {κ α : Type} [DecidableEq κ] (k : κ) : List (κ × α) → Option α
  | [] => none
  | p :: rest => if p.1 = k then some p.2 else aFind k rest

/-- Association-list update, the embedding of Python dict assignment:
replaces the first binding of the key, or appends a new binding. -/
def aInsert {κ α : Type} [DecidableEq κ] (k : κ) (v : α) : List (κ × α) → List (κ × α)
  | [] => [(k, v)]
  | p :: rest => if p.1 = k then (k, v) :: rest else p :: aInsert k v rest

/-- Python set.add on a list-as-set. -/
def setAdd {α : Type} [DecidableEq α] (x : α) (l : List α) : List α :=
  if x ∈ l then l else l ++ [x]

/-- Python set union (the | operator) on lists-as-sets. -/
def listUnion {α : Type} [DecidableEq α] (a b : List α) : List α :=
  a ++ b.filter (fun x => !decide (x ∈ a))

/-- Python subset test on lists-as-sets. -/
def listSubset {α : Type} [DecidableEq α] (a b : List α) : Bool :=
  a.all (fun x => decide (x ∈ b))

/-- Python set equality on lists-as-sets. -/
def setEqList {α : Type} [DecidableEq α] (a b : List α) : Bool :=
  listSubset a b && listSubset b a

/-- Identities: the entity layer only needs hash, equality and display
on identities (entity.py, Entity docstring), so they are embedded as an
opaque scalar. -/
abbrev Identity := Nat

/-- Field values carried by components (components.py stores primitives,
strings and identity references in its named tuples). -/
inductive Value where
  | intV (n : Int)
  | strV (s : String)
  | identV (i : Identity)
deriving DecidableEq, Repr

/-- One component: a named tuple from components.py, i.e. a kind name
(the namedtuple type name, e.g. Process, Named) with named fields. -/
structure Fact where
  kind : String
  fields : List (String × Value)
deriving DecidableEq, Repr

/-- Modelled from the spec: utils.Superposition applied to facts.  A
value stored under one component kind is either a single fact or, after
a preserving merge of differing facts, a superposition of the
conflicting candidate facts (spec section 4.2). -/
inductive FactVal where
  | fact (f : Fact)
  | superposition (variants : List Fact)
deriving DecidableEq, Repr

/-- The candidate facts a FactVal stands for. -/
def FactVal.variantsOf : FactVal → List Fact
  | .fact f => [f]
  | .superposition l => l

/-- Modelled from the spec: the per-kind policy of utils.MergeNamedTuples
with preserving=True (spec section 4.2): equal content is carried over
once, differing content is retained as a superposition of all candidate
facts. -/
def mergeFactVal (x y : FactVal) : FactVal :=
  if x = y then x
  else .superposition ((x.variantsOf ++ y.variantsOf).dedup)

/-- An entity component map: component kind name to stored value. -/
abbrev Components := List (String × FactVal)

/-- Modelled from the spec: utils.MergeNamedTuples with preserving=True
(spec section 4.2).  Kinds present in only one input are carried over
unchanged; kinds present in both are combined by mergeFactVal. -/
def MergeNamedTuples (x y : Components) : Components :=
  (x.map fun kv =>
    (kv.1, match aFind kv.1 y with
      | some w => mergeFactVal kv.2 w
      | none => kv.2))
  ++ y.filter (fun kv => (aFind kv.1 x).isNone)

/-- The Python runtime class of an Entity object: the base class
defined in entity.py, or some proper subclass of it. -/
inductive EClass where
  | base
  | sub (n : Nat)
deriving DecidableEq, Repr

/-- isinstance(obj-of-class c, target) for the flat Entity hierarchy:
every class is an instance of the base Entity class, and a proper
subclass only of itself. -/
def isinstanceCls (c target : EClass) : Bool :=
  match target with
  | .base => true
  | .sub m => c = .sub m

/-- The Entity of entity.py.  cls is the Python runtime class of the
instance.  generators and hasSession embed the session and generators
attributes that EntityCache.register_entity assigns dynamically; they
are absent (none / false) on a freshly constructed Entity. -/
structure Entity where
  cls : EClass
  identity : Identity
  components : Components
  collectors : List String
  copies_count : Nat
  generators : Option (List String)
  hasSession : Bool
deriving DecidableEq, Repr

/-- Entity.__init__ with its default arguments
(collectors=frozenset(), copies_count=1). -/
def Entity.init (cls : EClass) (identity : Identity) (components : Components)
    (collectors : List String) (copies_count : Nat) : Entity :=
  { cls := cls
    identity := identity
    components := components
    collectors := collectors
    copies_count := copies_count
    generators := none
    hasSession := false }

/-- Entity.__eq__: equality is identity equality only. -/
def Entity.eqE (x y : Entity) : Bool := decide (x.identity = y.identity)

/-- Entity.__ne__. -/
def Entity.neE (x y : Entity) : Bool := !(Entity.eqE x y)

/-- The Entity constructed by the return statement of Entity.merge:
always built via the base Entity class, components merged preserving,
collectors joined, copies_count summed. -/
def Entity.mergeRaw (x y : Entity) : Entity :=
  { cls := .base
    identity := x.identity
    components := MergeNamedTuples x.components y.components
    collectors := listUnion x.collectors y.collectors
    copies_count := x.copies_count + y.copies_count
    generators := none
    hasSession := false }

/-- Entity.merge: raises AttributeError when the two entities compare
unequal (i.e. have different identities), otherwise returns the merged
entity. -/
def Entity.merge (x y : Entity) : Except String Entity :=
  if Entity.neE x y then
    .error "Cannot merge entities with different identities."
  else
    .ok (Entity.mergeRaw x y)

/-- Modelled from the spec: obj.NoneObject and the result of the
Entity.m accessor.  The accessor yields the single field value, the
set of candidate values when the component is a superposition (spec
sections 4.2 and 8), or the absent sentinel carrying a reason. -/
inductive MResult where
  | value (v : Value)
  | values (vs : List Value)
  | noneObject (msg : String)
deriving DecidableEq, Repr

/-- The embedding of the return statement of Entity.m, the call
getattr(object=component_data, name=attr, default=NoneObject(...)).
The Python builtin getattr accepts no keyword arguments, so this call
raises TypeError on every execution, whatever component_data and attr
are; the defaulted attribute access the surrounding docstring promises
is never performed. -/
def getattrKw (_component_data : Option FactVal) (_attr : String)
    (_deflt : MResult) : Except String MResult :=
  .error "TypeError: getattr() takes no keyword arguments"

/-- The body of Entity.m once component and attribute names are known:
components.get(key=..., default=NoneObject(...)) followed by the
keyword getattr call.  The lookup is modelled as producing the
component when present (the components container is built by code
absent from the sources and may accept a keyword get; for a plain dict
this line would already raise TypeError); the getattr call that follows
then raises TypeError unconditionally. -/
def Entity.mGet (e : Entity) (component attr : String) : Except String MResult :=
  getattrKw (aFind component e.components) attr
    (.noneObject ("Component " ++ component ++ " has no attribute " ++ attr ++ "."))

/-- Splitting a character list at every occurrence of a separator
character; the pieces never contain the separator. -/
def splitOnChar (c : Char) : List Char → List (List Char)
  | [] => [[]]
  | x :: rest =>
    match splitOnChar c rest with
    | [] => if x = c then [[], []] else [[x]]
    | h :: t => if x = c then [] :: h :: t else (x :: h) :: t

/-- The embedding of the Python call attr.split with separator dot,
used by Entity.m. -/
def pySplitDot (s : String) : List String :=
  (splitOnChar (Char.ofNat 46) s.data).map List.asString

/-- Entity.m.  When no component argument is given, the attribute
string is first unpacked by attr.split, which raises ValueError unless
the split yields exactly two parts; every path that gets past the
unpacking then runs the component lookup and the keyword getattr
call. -/
def Entity.m (e : Entity) (attr : String) (component : Option String) :
    Except String MResult :=
  match component with
  | some c => e.mGet c attr
  | none =>
    match pySplitDot attr with
    | [c, a] => e.mGet c a
    | _ => .error "ValueError: not exactly two values to unpack"

/-- The per-session register of entities (EntityCache.__init__):
entities_by_identity maps identities to entities; identities_by_generator
maps generator names to the identities they returned. -/
structure EntityCache where
  entities_by_identity : List (Identity × Entity)
  identities_by_generator : List (String × List Identity)
deriving DecidableEq, Repr

/-- A freshly constructed EntityCache: both tables empty. -/
def EntityCache.new : EntityCache :=
  { entities_by_identity := [], identities_by_generator := [] }

/-- The attribute assignments performed at the top of
EntityCache.register_entity: entity.session = self.session and
entity.generators = set([generator]). -/
def Entity.withRegAttrs (e : Entity) (generator : String) : Entity :=
  { e with hasSession := true, generators := some [generator] }

/-- The two table updates at the end of EntityCache.register_entity:
store the entity under its identity and add the identity to the
generator memo set (setdefault(generator, set()).add(identity)). -/
def EntityCache.store (cache : EntityCache) (identity : Identity)
    (entity : Entity) (generator : String) : EntityCache :=
  { entities_by_identity := aInsert identity entity cache.entities_by_identity
    identities_by_generator :=
      aInsert generator
        (setAdd identity ((aFind generator cache.identities_by_generator).getD []))
        cache.identities_by_generator }

/-- EntityCache.register_entity: set the session and generators
attributes, merge with the already registered entity for the same
identity when there is one (propagating the AttributeError that
Entity.merge can raise), then update both tables. -/
def EntityCache.register_entity (cache : EntityCache) (entity : Entity)
    (generator : String) : Except String EntityCache :=
  let e := entity.withRegAttrs generator
  match aFind e.identity cache.entities_by_identity with
  | some existing =>
    match Entity.merge e existing with
    | .error msg => .error msg
    | .ok m => .ok (cache.store e.identity m generator)
  | none => .ok (cache.store e.identity e generator)

/-- A generator (collector): entity.py treats it as an opaque named
function of the session profile; since the spec declares collectors
side-effect-free, its output for the session is a fixed entity list. -/
structure Generator where
  name : String
  output : List Entity
deriving DecidableEq, Repr

/-- The external profile: session.profile.entity_generators returns the
generators contributing to a queried entity class (entity.py treats the
lookup as opaque). -/
structure Profile where
  entity_generators : EClass → Bool → List Generator

/-- The analysis session as seen by the entity layer: only its profile
is consulted. -/
structure Session where
  profile : Profile

/-- The inner loop of EntityCache._generate_entities over one
generator's output: register each yielded entity and add its identity
to the results set. -/
def regLoop (cache : EntityCache) (results : List Identity)
    (gname : String) : List Entity → Except String (EntityCache × List Identity)
  | [] => .ok (cache, results)
  | e :: rest =>
    match cache.register_entity e gname with
    | .error msg => .error msg
    | .ok cache2 => regLoop cache2 (setAdd e.identity results) gname rest

/-- The generator loop of EntityCache._generate_entities, returning the
final cache, the results identity set, and (as model instrumentation)
the names of the generators that were invoked, in order. -/
def genLoop (cache : EntityCache) (results : List Identity)
    (invoked : List String) (cache_only : Bool) :
    List Generator → Except String (EntityCache × List Identity × List String)
  | [] => .ok (cache, results, invoked)
  | gen :: rest =>
    match aFind gen.name cache.identities_by_generator with
    | some ids =>
      genLoop cache (ids.foldl (fun acc i => setAdd i acc) results)
        invoked cache_only rest
    | none =>
      if cache_only then genLoop cache results invoked cache_only rest
      else
        match regLoop cache results gen.name gen.output with
        | .error msg => .error msg
        | .ok (cache2, results2) =>
          genLoop cache2 results2 (invoked ++ [gen.name]) cache_only rest

/-- The yield loop of EntityCache._generate_entities: look each result
identity up in entities_by_identity (a missing key raises KeyError) and
yield the entity when isinstance(entity, entity_cls) holds. -/
def yieldLoop (cache : EntityCache) (entity_cls : EClass) :
    List Identity → Except String (List Entity)
  | [] => .ok []
  | i :: rest =>
    match aFind i cache.entities_by_identity with
    | none => .error "KeyError"
    | some e =>
      match yieldLoop cache entity_cls rest with
      | .error msg => .error msg
      | .ok out => .ok (if isinstanceCls e.cls entity_cls then e :: out else out)

/-- EntityCache._generate_entities: ask the profile for the generators
of the queried class, run the generator loop, then the yield loop.  The
returned triple also carries the new cache state and the invocation
trace of the generator loop. -/
def EntityCache.generate_entities (cache : EntityCache) (session : Session)
    (entity_cls : EClass) (include_subclasses cache_only : Bool) :
    Except String (List Entity × EntityCache × List String) :=
  match genLoop cache [] [] cache_only
      (session.profile.entity_generators entity_cls include_subclasses) with
  | .error msg => .error msg
  | .ok (cache2, results, invoked) =>
    match yieldLoop cache2 entity_cls results with
    | .error msg => .error msg
    | .ok out => .ok (out, cache2, invoked)

/-- A key object handed to EntityCache._retrieve_entities: None, a
plain key object, or a utils.Superposition of key objects (the
Superposition shape is modelled from the spec, utils.py not being among
the sources). -/
inductive KeyObj where
  | noneK
  | single (i : Identity)
  | superposition (variants : List Identity)
deriving DecidableEq, Repr

/-- Modelled from the spec: obj.BaseObjectIdentity coerces a key object
into a value usable as a dictionary key; identities already are such
values in this embedding. -/
def BaseObjectIdentity (keyObj : Identity) : Identity := keyObj

/-- Modelled from the spec: the construction
entity_cls(key_obj=key_obj, session=self) in the creation branch of
EntityCache._retrieve_entities (its docstring: absent entities are
created using entity_cls as class and Session as generator name).  The
Entity class in the sources has no such constructor; per the spec the
provisional entity carries the key object as identity and no
components. -/
def entityConstruct (cls : EClass) (keyObj : Identity) : Entity :=
  { cls := cls
    identity := BaseObjectIdentity keyObj
    components := []
    collectors := []
    copies_count := 1
    generators := none
    hasSession := false }

/-- The loop of EntityCache._retrieve_entities over the expanded key
objects: yield the registered entity for a known identity; otherwise,
unless cache_only, construct a provisional entity, register it under
the generator name Session, and yield it. -/
def retLoop (entity_cls : Option EClass) (cache_only : Bool)
    (cache : EntityCache) : List Identity → Except String (List Entity × EntityCache)
  | [] => .ok ([], cache)
  | k :: rest =>
    let idx := BaseObjectIdentity k
    match aFind idx cache.entities_by_identity with
    | some e =>
      match retLoop entity_cls cache_only cache rest with
      | .error msg => .error msg
      | .ok (out, cache2) => .ok (e :: out, cache2)
    | none =>
      if cache_only then retLoop entity_cls cache_only cache rest
      else
        match entity_cls with
        | none => .error "TypeError: NoneType object is not callable"
        | some cls =>
          match cache.register_entity (entityConstruct cls k) "Session" with
          | .error msg => .error msg
          | .ok cache2 =>
            match retLoop entity_cls cache_only cache2 rest with
            | .error msg => .error msg
            | .ok (out, cache3) =>
              .ok ((entityConstruct cls k).withRegAttrs "Session" :: out, cache3)

/-- EntityCache._retrieve_entities: expand a superposition into its
variants, treat None as no key objects, then run the retrieval loop. -/
def EntityCache.retrieve_entities (cache : EntityCache)
    (entity_cls : Option EClass) (key_obj : KeyObj) (cache_only : Bool) :
    Except String (List Entity × EntityCache) :=
  let key_objs : List Identity :=
    match key_obj with
    | .superposition vs => vs
    | .noneK => []
    | .single k => [k]
  retLoop entity_cls cache_only cache key_objs

/-- EntityCache.find: dispatch on the truthiness of key_obj first, then
of entity_cls; with neither, return the empty list.  The result triple
carries the resulting cache state and the generator invocation trace. -/
def EntityCache.find (cache : EntityCache) (session : Session)
    (entity_cls : Option EClass) (key_obj : KeyObj)
    (include_subclasses cache_only : Bool) :
    Except String (List Entity × EntityCache × List String) :=
  match key_obj with
  | .noneK =>
    match entity_cls with
    | some c => cache.generate_entities session c include_subclasses cache_only
    | none => .ok ([], cache, [])
  | k =>
    match cache.retrieve_entities entity_cls k cache_only with
    | .error msg => .error msg
    | .ok (out, cache2) => .ok (out, cache2, [])

/-- Decidable form of the identity-table invariant: every stored entity
is keyed by its own identity.  register_entity maintains this because
it always stores under entity.identity. -/
def wfIdentB (cache : EntityCache) : Bool :=
  cache.entities_by_identity.all (fun p => decide (p.2.identity = p.1))

/-- Decidable form of the memo-table invariant: every identity recorded
under a generator name is registered in the identity table.
register_entity maintains this because it inserts into both tables. -/
def wfMemoB (cache : EntityCache) : Bool :=
  cache.identities_by_generator.all
    (fun p => p.2.all (fun i => (aFind i cache.entities_by_identity).isSome))

/-- Both cache invariants. -/
def wfCacheB (cache : EntityCache) : Bool :=
  wfIdentB cache && wfMemoB cache

/-- Comparison of stored component values with conflict sets compared
as sets of candidate facts. -/
def optFactValEquiv : Option FactVal → Option FactVal → Bool
  | none, none => true
  | some v, some w => setEqList v.variantsOf w.variantsOf
  | _, _ => false

/-- Comparison of two component maps: the same kinds are present and
each kind carries the same value, conflicts compared as sets. -/
def componentsEquiv (a b : Components) : Bool :=
  (a.map Prod.fst ++ b.map Prod.fst).all
    (fun k => optFactValEquiv (aFind k a) (aFind k b))

/-- The identities of a list of yielded entities. -/
def identsOf (out : List Entity) : List Identity := out.map Entity.identity

/-- Example identity P1 of the spec scenario. -/
def exP1 : Identity := 1

/-- Example Process fact of the spec scenario: pid=100, command=bash. -/
def exProcFact : Fact :=
  { kind := "Process", fields := [("pid", .intV 100), ("command", .strV "bash")] }

/-- Conflicting Process fact: pid=999. -/
def exProcFact999 : Fact :=
  { kind := "Process", fields := [("pid", .intV 999), ("command", .strV "bash")] }

/-- Example Named fact of the spec scenario: name=bash. -/
def exNamedFact : Fact :=
  { kind := "Named", fields := [("name", .strV "bash")] }

/-- Observation entity carrying the Process fact for P1, built with the
Entity constructor defaults. -/
def exEProc : Entity := Entity.init .base exP1 [("Process", .fact exProcFact)] [] 1

/-- Observation entity carrying the conflicting Process fact for P1. -/
def exEProc999 : Entity := Entity.init .base exP1 [("Process", .fact exProcFact999)] [] 1

/-- Observation entity carrying the Named fact for P1. -/
def exENamed : Entity := Entity.init .base exP1 [("Named", .fact exNamedFact)] [] 1

/-- An entity of a proper Entity subclass, registered under identity 1. -/
def exESub : Entity := Entity.init (.sub 0) 1 [] [] 1

/-- A cache in which generator A is memoized as having produced
identity 1, whose entity is an instance of the subclass sub 0. -/
def exCacheSub : EntityCache :=
  { entities_by_identity := [(1, exESub)]
    identities_by_generator := [("A", [1])] }

/-- A generator already memoized in exCacheSub. -/
def exGenA : Generator := { name := "A", output := [] }

/-- A not-yet-run generator that observes identity 1 again. -/
def exGenB : Generator := { name := "B", output := [Entity.init (.sub 0) 1 [] [] 1] }

/-- Session whose profile contributes exGenA and exGenB for every
queried class. -/
def exSessAB : Session := { profile := { entity_generators := fun _ _ => [exGenA, exGenB] } }

/-- A generator that yields no entities. -/
def exGenEmpty : Generator := { name := "empty_gen", output := [] }

/-- Session whose profile contributes only the empty generator. -/
def exSessEmpty : Session :=
  { profile := { entity_generators := fun _ _ => [exGenEmpty] } }

/-- A generator yielding one entity. -/
def exGenOne : Generator := { name := "gen_one", output := [exEProc] }

/-- Session builder used by the memoization theorems: the profile
contributes a fixed generator list for every queried class. -/
def sessionOf (gens : List Generator) : Session :=
  { profile := { entity_generators := fun _ _ => gens } }

/-- Identity-table invariant, propositional form: every registered
entity is stored under its own identity. -/
def WfIdent (cache : EntityCache) : Prop :=
  ∀ i e, aFind i cache.entities_by_identity = some e → e.identity = i

/-- Memo-table invariant, propositional form: every identity recorded
for a generator is registered. -/
def WfMemo (cache : EntityCache) : Prop :=
  ∀ g ids, aFind g cache.identities_by_generator = some ids →
    ∀ i ∈ ids, (aFind i cache.entities_by_identity).isSome = true

theorem aFind_aInsert_self {κ α : Type} [DecidableEq κ] (k : κ) (v : α)
    (l : List (κ × α)) : aFind k (aInsert k v l) = some v := by
  induction l with
  | nil => simp [aInsert, aFind]
  | cons p rest ih =>
    by_cases h : p.1 = k
    · simp [aInsert, h, aFind]
    · simp [aInsert, h, aFind, ih]

theorem aFind_aInsert_ne {κ α : Type} [DecidableEq κ] {k k2 : κ} (v : α)
    (l : List (κ × α)) (h : k2 ≠ k) : aFind k (aInsert k2 v l) = aFind k l := by
  induction l with
  | nil => simp [aInsert, aFind, h]
  | cons p rest ih =>
    by_cases hp : p.1 = k2
    · have hpk : ¬ p.1 = k := by rw [hp]; exact h
      simp only [aInsert, if_pos hp, aFind, if_neg h, if_neg hpk]
    · simp only [aInsert, if_neg hp, aFind, ih]

theorem aFind_mem {κ α : Type} [DecidableEq κ] {k : κ} {v : α}
    {l : List (κ × α)} (h : aFind k l = some v) : (k, v) ∈ l := by
  induction l with
  | nil => simp [aFind] at h
  | cons p rest ih =>
    by_cases hp : p.1 = k
    · simp [aFind, hp] at h
      subst hp; subst h; exact List.mem_cons_self _ _
    · simp [aFind, hp] at h
      exact List.mem_cons_of_mem _ (ih h)

theorem mem_setAdd {α : Type} [DecidableEq α] {a x : α} {l : List α} :
    a ∈ setAdd x l ↔ a ∈ l ∨ a = x := by
  unfold setAdd
  by_cases h : x ∈ l
  · simp only [if_pos h]
    constructor
    · exact Or.inl
    · rintro (h2 | rfl)
      · exact h2
      · exact h
  · simp [if_neg h, List.mem_append]

theorem mem_foldl_setAdd {a : Identity} (l : List Identity) (R : List Identity) :
    a ∈ l.foldl (fun acc i => setAdd i acc) R ↔ a ∈ R ∨ a ∈ l := by
  induction l generalizing R with
  | nil => simp
  | cons x rest ih =>
    simp only [List.foldl_cons, ih, mem_setAdd, List.mem_cons]
    tauto

theorem mem_listUnion {α : Type} [DecidableEq α] {a : α} {x y : List α} :
    a ∈ listUnion x y ↔ a ∈ x ∨ a ∈ y := by
  simp only [listUnion, List.mem_append, List.mem_filter,
    Bool.not_eq_true', decide_eq_false_iff_not]
  tauto

theorem setEqList_iff {α : Type} [DecidableEq α] {a b : List α} :
    setEqList a b = true ↔ ∀ x, x ∈ a ↔ x ∈ b := by
  simp only [setEqList, listSubset, Bool.and_eq_true, List.all_eq_true,
    decide_eq_true_eq]
  constructor
  · rintro ⟨h1, h2⟩ x; exact ⟨h1 x, h2 x⟩
  · intro h; exact ⟨fun x hx => (h x).1 hx, fun x hx => (h x).2 hx⟩

theorem setEqList_refl {α : Type} [DecidableEq α] (a : List α) :
    setEqList a a = true := setEqList_iff.2 (fun _ => Iff.rfl)

theorem aFind_append_some {κ α : Type} [DecidableEq κ] {k : κ} {v : α}
    {A : List (κ × α)} (B : List (κ × α)) (h : aFind k A = some v) :
    aFind k (A ++ B) = some v := by
  induction A with
  | nil => simp [aFind] at h
  | cons p rest ih =>
    by_cases hp : p.1 = k <;> simp [aFind, hp] at h ⊢
    · exact h
    · exact ih h

theorem aFind_append_none {κ α : Type} [DecidableEq κ] {k : κ}
    {A : List (κ × α)} (B : List (κ × α)) (h : aFind k A = none) :
    aFind k (A ++ B) = aFind k B := by
  induction A with
  | nil => simp
  | cons p rest ih =>
    by_cases hp : p.1 = k <;> simp [aFind, hp] at h ⊢
    exact ih h

theorem aFind_mapval {κ α β : Type} [DecidableEq κ] (k : κ) (g : κ → α → β)
    (l : List (κ × α)) :
    aFind k (l.map (fun kv => (kv.1, g kv.1 kv.2))) = (aFind k l).map (g k) := by
  induction l with
  | nil => simp [aFind]
  | cons p rest ih =>
    by_cases hp : p.1 = k
    · subst hp; simp [aFind]
    · simp [aFind, hp, ih]

theorem aFind_filter_key {κ α : Type} [DecidableEq κ] (k : κ) (p : κ → Bool)
    (l : List (κ × α)) :
    aFind k (l.filter (fun kv => p kv.1)) = if p k then aFind k l else none := by
  induction l with
  | nil => simp [aFind]
  | cons q rest ih =>
    by_cases hq : p q.1
    · by_cases hk : q.1 = k
      · subst hk; simp [List.filter_cons, hq, aFind]
      · simp [List.filter_cons, hq, aFind, hk, ih]
    · by_cases hk : q.1 = k
      · subst hk
        simp only [List.filter_cons, Bool.not_eq_true] at hq ⊢
        rw [if_neg (by simp [hq]), ih, aFind]
        simp [hq]
      · simp only [List.filter_cons]
        rw [if_neg (by simp [hq]), ih, aFind, if_neg hk]

theorem aFind_MergeNamedTuples (x y : Components) (k : String) :
    aFind k (MergeNamedTuples x y) =
      match aFind k x, aFind k y with
      | some v, some w => some (mergeFactVal v w)
      | some v, none => some v
      | none, some w => some w
      | none, none => none := by
  unfold MergeNamedTuples
  have hmap := aFind_mapval k
    (fun k1 v1 => match aFind k1 y with
      | some w => mergeFactVal v1 w
      | none => v1) x
  cases hx : aFind k x with
  | some v =>
    rw [hx] at hmap
    rw [aFind_append_some _ hmap]
    cases aFind k y <;> rfl
  | none =>
    rw [hx] at hmap
    rw [aFind_append_none _ hmap,
      aFind_filter_key k (fun k1 => (aFind k1 x).isNone) y, hx]
    simp only [Option.isNone_none, if_true]
    cases aFind k y <;> rfl

theorem mergeFactVal_self (v : FactVal) : mergeFactVal v v = v := by
  simp [mergeFactVal]

theorem mergeFactVal_comm_sets (v w : FactVal) :
    setEqList (mergeFactVal v w).variantsOf (mergeFactVal w v).variantsOf = true := by
  by_cases h : v = w
  · subst h; exact setEqList_refl _
  · have h2 : ¬ w = v := fun e => h e.symm
    rw [setEqList_iff]
    intro f
    simp [mergeFactVal, h, h2, FactVal.variantsOf, List.mem_dedup]
    tauto

theorem listUnion_self {α : Type} [DecidableEq α] (a : List α) :
    listUnion a a = a := by
  unfold listUnion
  rw [List.filter_eq_nil_iff.2 (by intro x hx; simp [hx]), List.append_nil]

theorem setEqList_listUnion_comm {α : Type} [DecidableEq α] (a b : List α) :
    setEqList (listUnion a b) (listUnion b a) = true := by
  rw [setEqList_iff]
  intro x
  rw [mem_listUnion, mem_listUnion]
  tauto

/-- Claim C2: Entity.merge signals an error exactly when the two
identities differ, never returning a merged entity in that case; when
the identities agree it returns a merged entity whose identity is the
identity of the first argument. -/
theorem merge_requires_equal_identity (x y : Entity) :
    (x.identity ≠ y.identity →
      Entity.merge x y =
        Except.error "Cannot merge entities with different identities.") ∧
    (x.identity = y.identity →
      ∃ e, Entity.merge x y = Except.ok e ∧ e.identity = x.identity) := by
  constructor
  · intro h
    simp [Entity.merge, Entity.neE, Entity.eqE, h]
  · intro h
    exact ⟨Entity.mergeRaw x y, by simp [Entity.merge, Entity.neE, Entity.eqE, h], rfl⟩

/-- Witness for claim C2 at concrete entities with unequal and with
equal identities. -/
theorem merge_requires_equal_identity_witness :
    (Entity.merge exEProc (Entity.init .base 2 [] [] 1) =
      Except.error "Cannot merge entities with different identities.") ∧
    (∃ e, Entity.merge exEProc exENamed = Except.ok e ∧
      e.identity = exEProc.identity) :=
  ⟨(merge_requires_equal_identity exEProc (Entity.init .base 2 [] [] 1)).1
      (by decide),
   (merge_requires_equal_identity exEProc exENamed).2 (by decide)⟩

/-- Claim C5: merging an entity with itself succeeds and yields the
same identity, pointwise unchanged fact content, the unchanged
collectors set, and twice the copies count. -/
theorem merge_self_idempotent (e : Entity) :
    ∃ m, Entity.merge e e = Except.ok m ∧ m.identity = e.identity ∧
      (∀ k, aFind k m.components = aFind k e.components) ∧
      m.collectors = e.collectors ∧
      m.copies_count = 2 * e.copies_count := by
  refine ⟨Entity.mergeRaw e e, ?_, rfl, ?_, ?_, ?_⟩
  · simp [Entity.merge, Entity.neE, Entity.eqE]
  · intro k
    show aFind k (MergeNamedTuples e.components e.components) = aFind k e.components
    rw [aFind_MergeNamedTuples]
    cases aFind k e.components <;> simp [mergeFactVal_self]
  · exact listUnion_self e.collectors
  · show e.copies_count + e.copies_count = 2 * e.copies_count
    ring

/-- Claim C6: for entities with equal identities, merging in either
order succeeds and the two results agree on identity, on the fact-kind
map with conflicts compared as sets of candidate facts, on the
collectors set, and on the copies count. -/
theorem merge_commutative (x y : Entity) (h : x.identity = y.identity) :
    ∃ m1 m2, Entity.merge x y = Except.ok m1 ∧ Entity.merge y x = Except.ok m2 ∧
      m1.identity = m2.identity ∧
      componentsEquiv m1.components m2.components = true ∧
      setEqList m1.collectors m2.collectors = true ∧
      m1.copies_count = m2.copies_count := by
  refine ⟨Entity.mergeRaw x y, Entity.mergeRaw y x,
    by simp [Entity.merge, Entity.neE, Entity.eqE, h],
    by simp [Entity.merge, Entity.neE, Entity.eqE, h.symm],
    h, ?_, setEqList_listUnion_comm _ _, Nat.add_comm _ _⟩
  show componentsEquiv (MergeNamedTuples x.components y.components)
    (MergeNamedTuples y.components x.components) = true
  rw [componentsEquiv, List.all_eq_true]
  intro k _
  rw [aFind_MergeNamedTuples, aFind_MergeNamedTuples]
  cases ha : aFind k x.components <;> cases hb : aFind k y.components <;>
    simp [optFactValEquiv, mergeFactVal_comm_sets, setEqList_refl]

/-- Witness for claim C6 at two concrete same-identity entities with a
conflicting Process fact. -/
theorem merge_commutative_witness :
    ∃ m1 m2, Entity.merge exEProc exEProc999 = Except.ok m1 ∧
      Entity.merge exEProc999 exEProc = Except.ok m2 ∧
      m1.identity = m2.identity ∧
      componentsEquiv m1.components m2.components = true ∧
      setEqList m1.collectors m2.collectors = true ∧
      m1.copies_count = m2.copies_count :=
  merge_commutative exEProc exEProc999 (by decide)

/-- Claim C9 (behavior of the code at the failing input): the field
accessor raises on every call — the two-argument form always raises
the TypeError coming from the keyword getattr call, the dotted form
raises either that TypeError or the ValueError from the attribute
unpacking, and no call of either form ever returns a value or the
NoneObject sentinel; the concluding conjunct evaluates the accessor at
the concrete scenario input. -/
theorem accessor_always_raises (e : Entity) (c attr : String) :
    Entity.m e attr (some c) =
      .error "TypeError: getattr() takes no keyword arguments" ∧
    (Entity.m e attr none =
        .error "TypeError: getattr() takes no keyword arguments" ∨
      Entity.m e attr none =
        .error "ValueError: not exactly two values to unpack") ∧
    (∀ r, Entity.m e attr (some c) ≠ Except.ok r) ∧
    (∀ r, Entity.m e attr none ≠ Except.ok r) ∧
    Entity.m exEProc "pid" (some "Process") =
      .error "TypeError: getattr() takes no keyword arguments" := by
  have hdot : ∀ (e2 : Entity) (a : String),
      Entity.m e2 a none =
          .error "TypeError: getattr() takes no keyword arguments" ∨
        Entity.m e2 a none =
          .error "ValueError: not exactly two values to unpack" := by
    intro e2 a
    cases hsp : pySplitDot a with
    | nil => right; simp [Entity.m, hsp]
    | cons c1 t =>
      cases t with
      | nil => right; simp [Entity.m, hsp]
      | cons a1 t2 =>
        cases t2 with
        | nil => left; simp [Entity.m, hsp, Entity.mGet, getattrKw]
        | cons x t3 => right; simp [Entity.m, hsp]
  refine ⟨rfl, hdot e attr, ?_, ?_, rfl⟩
  · intro r h
    simp [Entity.m, Entity.mGet, getattrKw] at h
  · intro r h
    rcases hdot e attr with h2 | h2 <;> rw [h2] at h <;> exact Except.noConfusion h

theorem withRegAttrs_identity (e : Entity) (g : String) :
    (e.withRegAttrs g).identity = e.identity := rfl

theorem withRegAttrs_components (e : Entity) (g : String) :
    (e.withRegAttrs g).components = e.components := rfl

theorem mergeRaw_cls (x y : Entity) : (Entity.mergeRaw x y).cls = .base := rfl

theorem register_fresh {cache : EntityCache} {e : Entity} {g : String}
    (h : aFind e.identity cache.entities_by_identity = none) :
    cache.register_entity e g = .ok (cache.store e.identity (e.withRegAttrs g) g) := by
  simp only [EntityCache.register_entity, withRegAttrs_identity, h]

theorem register_hit {cache : EntityCache} {e : Entity} {g : String} {existing : Entity}
    (h : aFind e.identity cache.entities_by_identity = some existing)
    (hid : existing.identity = e.identity) :
    cache.register_entity e g =
      .ok (cache.store e.identity (Entity.mergeRaw (e.withRegAttrs g) existing) g) := by
  simp only [EntityCache.register_entity, withRegAttrs_identity, h]
  simp [Entity.merge, Entity.neE, Entity.eqE, withRegAttrs_identity, hid, Except.map]

theorem store_by_self (cache : EntityCache) (i : Identity) (e : Entity) (g : String) :
    aFind i (cache.store i e g).entities_by_identity = some e :=
  aFind_aInsert_self i e cache.entities_by_identity

theorem store_by_ne {i j : Identity} (cache : EntityCache) (e : Entity) (g : String)
    (h : i ≠ j) :
    aFind j (cache.store i e g).entities_by_identity =
      aFind j cache.entities_by_identity :=
  aFind_aInsert_ne e cache.entities_by_identity h

theorem store_memo_self (cache : EntityCache) (i : Identity) (e : Entity) (g : String) :
    aFind g (cache.store i e g).identities_by_generator =
      some (setAdd i ((aFind g cache.identities_by_generator).getD [])) :=
  aFind_aInsert_self g _ cache.identities_by_generator

theorem store_memo_ne {g g2 : String} (cache : EntityCache) (i : Identity) (e : Entity)
    (h : g ≠ g2) :
    aFind g2 (cache.store i e g).identities_by_generator =
      aFind g2 cache.identities_by_generator :=
  aFind_aInsert_ne _ cache.identities_by_generator h

theorem store_by_isSome (cache : EntityCache) (i : Identity) (e : Entity) (g : String)
    (j : Identity) :
    (aFind j (cache.store i e g).entities_by_identity).isSome = true ↔
      j = i ∨ (aFind j cache.entities_by_identity).isSome = true := by
  by_cases h : j = i
  · subst h; simp [store_by_self]
  · rw [store_by_ne cache e g (fun h2 => h h2.symm)]
    simp [h]

theorem store_wfIdent {cache : EntityCache} (hw : WfIdent cache) {i : Identity}
    {e : Entity} {g : String} (hid : e.identity = i) :
    WfIdent (cache.store i e g) := by
  intro j e2 hj
  by_cases h : j = i
  · subst h
    rw [store_by_self] at hj
    injection hj with h2
    subst h2; exact hid
  · rw [store_by_ne cache e g (fun h2 => h h2.symm)] at hj
    exact hw _ _ hj

theorem store_wfMemo {cache : EntityCache} (hm : WfMemo cache) (i : Identity)
    (e : Entity) (g : String) :
    WfMemo (cache.store i e g) := by
  intro g2 ids hg2 j hj
  rw [store_by_isSome]
  by_cases h : g = g2
  · subst h
    rw [store_memo_self] at hg2
    injection hg2 with h2
    subst h2
    rcases mem_setAdd.1 hj with hj2 | rfl
    · cases hold : aFind g cache.identities_by_generator with
      | none => rw [hold] at hj2; simp at hj2
      | some ids0 =>
        rw [hold] at hj2
        exact Or.inr (hm _ _ hold _ hj2)
    · exact Or.inl rfl
  · rw [store_memo_ne cache i e h] at hg2
    exact Or.inr (hm _ _ hg2 _ hj)

theorem register_ok {cache : EntityCache} (e : Entity) (g : String)
    (hw : WfIdent cache) :
    ∃ stored, cache.register_entity e g = .ok (cache.store e.identity stored g) ∧
      stored.identity = e.identity ∧
      (∀ existing, aFind e.identity cache.entities_by_identity = some existing →
        stored.cls = .base) := by
  cases hf : aFind e.identity cache.entities_by_identity with
  | none =>
    exact ⟨e.withRegAttrs g, register_fresh hf, rfl,
      fun ex hex => by simp [hf] at hex⟩
  | some ex =>
    exact ⟨Entity.mergeRaw (e.withRegAttrs g) ex, register_hit hf (hw _ _ hf), rfl,
      fun _ _ => rfl⟩

theorem register_pres {cache : EntityCache} {e : Entity} {g : String}
    {cache2 : EntityCache} (hok : cache.register_entity e g = .ok cache2)
    (hw : WfIdent cache) :
    WfIdent cache2 ∧
    (∀ j, (aFind j cache.entities_by_identity).isSome = true →
      (aFind j cache2.entities_by_identity).isSome = true) ∧
    (∀ i e0, aFind i cache.entities_by_identity = some e0 → e0.cls = .base →
      ∃ e1, aFind i cache2.entities_by_identity = some e1 ∧ e1.cls = .base) := by
  obtain ⟨stored, heq, hid, hcls⟩ := register_ok e g hw
  rw [heq] at hok
  injection hok with hok
  subst hok
  refine ⟨store_wfIdent hw hid, ?_, ?_⟩
  · intro j hj
    rw [store_by_isSome]
    exact Or.inr hj
  · intro i e0 h0 hbase
    by_cases h : i = e.identity
    · subst h
      exact ⟨stored, store_by_self _ _ _ _, hcls _ h0⟩
    · rw [store_by_ne cache stored g (fun h2 => h h2.symm)]
      exact ⟨e0, h0, hbase⟩

/-- Claim C1: after registering two same-identity observations whose
facts of kind K differ, the entity stored in the cache carries under K
a two-element superposition containing both original fact values. -/
theorem conflict_preserved_on_register
    (cache : EntityCache) (e1 e2 : Entity) (g1 g2 K : String) (a b : Fact)
    (hfresh : aFind e1.identity cache.entities_by_identity = none)
    (hid : e2.identity = e1.identity)
    (h1 : aFind K e1.components = some (.fact a))
    (h2 : aFind K e2.components = some (.fact b))
    (hab : a ≠ b) :
    ∃ c1 c2 stored,
      cache.register_entity e1 g1 = .ok c1 ∧
      c1.register_entity e2 g2 = .ok c2 ∧
      aFind e1.identity c2.entities_by_identity = some stored ∧
      aFind K stored.components = some (.superposition [b, a]) ∧
      [b, a].length = 2 ∧ a ∈ [b, a] ∧ b ∈ [b, a] := by
  have hr1 := register_fresh (g := g1) hfresh
  have hfind1 : aFind e2.identity
      (cache.store e1.identity (e1.withRegAttrs g1) g1).entities_by_identity =
      some (e1.withRegAttrs g1) := by
    rw [hid]; exact store_by_self _ _ _ _
  have hr2 := register_hit (g := g2) hfind1 (by rw [withRegAttrs_identity, hid])
  refine ⟨_, _, Entity.mergeRaw (e2.withRegAttrs g2) (e1.withRegAttrs g1),
    hr1, hr2, ?_, ?_, rfl, by simp, by simp⟩
  · rw [← hid]
    exact store_by_self _ _ _ _
  · show aFind K (MergeNamedTuples (e2.withRegAttrs g2).components
      (e1.withRegAttrs g1).components) = _
    rw [withRegAttrs_components, withRegAttrs_components,
      aFind_MergeNamedTuples, h2, h1]
    have hne : (FactVal.fact b) ≠ (FactVal.fact a) := by
      intro hcon
      injection hcon with hcon2
      exact hab hcon2.symm
    simp only [mergeFactVal, if_neg hne, FactVal.variantsOf, List.singleton_append]
    rw [List.dedup_cons_of_not_mem
        (by intro hmem; rw [List.mem_singleton] at hmem; exact hab hmem.symm),
      List.dedup_cons_of_not_mem (List.not_mem_nil a), List.dedup_nil]

/-- Witness for claim C1: the conflicting-pid scenario of the spec on a
fresh cache. -/
theorem conflict_preserved_on_register_witness :
    ∃ c1 c2 stored,
      EntityCache.new.register_entity exEProc "A" = .ok c1 ∧
      c1.register_entity exEProc999 "B" = .ok c2 ∧
      aFind exEProc.identity c2.entities_by_identity = some stored ∧
      aFind "Process" stored.components =
        some (.superposition [exProcFact999, exProcFact]) ∧
      [exProcFact999, exProcFact].length = 2 ∧
      exProcFact ∈ [exProcFact999, exProcFact] ∧
      exProcFact999 ∈ [exProcFact999, exProcFact] :=
  conflict_preserved_on_register EntityCache.new exEProc exEProc999 "A" "B"
    "Process" exProcFact exProcFact999 rfl rfl rfl rfl (by decide)

/-- Claim C4 (behavior of the code at the spec scenario): after the two
registrations for P1 the cache holds one entity with both facts and
copies_count 2, and a find by identity yields exactly that entity, but
its collectors set is empty — the generator names proc_list and
name_scan survive only in the cache memo table, not as the entity
sources the spec promises. -/
theorem scenario_sources_empty :
    ∃ c1 c2 stored,
      EntityCache.new.register_entity exEProc "proc_list" = .ok c1 ∧
      c1.register_entity exENamed "name_scan" = .ok c2 ∧
      aFind exP1 c2.entities_by_identity = some stored ∧
      c2.retrieve_entities (some .base) (.single exP1) false = .ok ([stored], c2) ∧
      (aFind "Process" stored.components).isSome = true ∧
      (aFind "Named" stored.components).isSome = true ∧
      stored.copies_count = 2 ∧
      stored.collectors = [] ∧
      stored.generators = none :=
  ⟨_, _, _, rfl, rfl, rfl, rfl, rfl, rfl, rfl, rfl, rfl⟩

theorem regLoop_spec (g : String) (es : List Entity) :
    ∀ cache results, WfIdent cache →
    ∃ cache2 results2, regLoop cache results g es = .ok (cache2, results2) ∧
      WfIdent cache2 ∧
      (WfMemo cache → WfMemo cache2) ∧
      (∀ i, i ∈ results2 ↔ i ∈ results ∨ i ∈ es.map Entity.identity) ∧
      (∀ j, (aFind j cache2.entities_by_identity).isSome = true ↔
        (aFind j cache.entities_by_identity).isSome = true ∨
          j ∈ es.map Entity.identity) ∧
      ((aFind g cache2.identities_by_generator).isSome = true ↔
        (aFind g cache.identities_by_generator).isSome = true ∨ es ≠ []) ∧
      (∀ i, i ∈ (aFind g cache2.identities_by_generator).getD [] ↔
        i ∈ (aFind g cache.identities_by_generator).getD [] ∨
          i ∈ es.map Entity.identity) ∧
      (∀ g2, g2 ≠ g →
        aFind g2 cache2.identities_by_generator =
          aFind g2 cache.identities_by_generator) ∧
      (∀ i e0, aFind i cache.entities_by_identity = some e0 → e0.cls = .base →
        ∃ e1, aFind i cache2.entities_by_identity = some e1 ∧ e1.cls = .base) := by
  induction es with
  | nil =>
    intro cache results hw
    exact ⟨cache, results, rfl, hw, fun hm => hm,
      by simp, by simp, by simp, by simp, fun _ _ => rfl,
      fun i e0 h0 hb => ⟨e0, h0, hb⟩⟩
  | cons e rest ih =>
    intro cache results hw
    obtain ⟨stored, heq, hid, hclsmerge⟩ := register_ok e g hw
    obtain ⟨cache2, results2, hloop, hw2, hm2, hres2, hby2, hgsome2, hgset2, hgne2, hbase2⟩ :=
      ih (cache.store e.identity stored g) (setAdd e.identity results)
        (store_wfIdent hw hid)
    refine ⟨cache2, results2, ?_, hw2, ?_, ?_, ?_, ?_, ?_, ?_, ?_⟩
    · rw [regLoop, heq]
      exact hloop
    · intro hm
      exact hm2 (store_wfMemo hm _ _ _)
    · intro i
      rw [hres2 i, mem_setAdd, List.map_cons, List.mem_cons]
      tauto
    · intro j
      rw [hby2 j, store_by_isSome, List.map_cons, List.mem_cons]
      tauto
    · rw [hgsome2, store_memo_self]
      simp
    · intro i
      rw [hgset2 i, store_memo_self, List.map_cons, List.mem_cons]
      simp only [Option.getD_some, mem_setAdd]
      tauto
    · intro g2 hne
      rw [hgne2 g2 hne, store_memo_ne cache e.identity stored (fun h => hne h.symm)]
    · intro i e0 h0 hb
      by_cases h : i = e.identity
      · subst h
        exact hbase2 e.identity stored (store_by_self _ _ _ _) (hclsmerge e0 h0)
      · exact hbase2 i e0
          (by rw [store_by_ne cache stored g (fun h2 => h h2.symm)]; exact h0) hb

theorem genLoopCO_spec (gens : List Generator) :
    ∀ cache results invoked,
    ∃ results2,
      genLoop cache results invoked true gens = .ok (cache, results2, invoked) ∧
      ∀ i, i ∈ results2 ↔ i ∈ results ∨
        ∃ g, g ∈ gens ∧ i ∈ (aFind g.name cache.identities_by_generator).getD [] := by
  induction gens with
  | nil =>
    intro cache results invoked
    exact ⟨results, rfl, by simp⟩
  | cons gen rest ih =>
    intro cache results invoked
    cases hm : aFind gen.name cache.identities_by_generator with
    | some ids =>
      obtain ⟨results2, hloop, hiff⟩ :=
        ih cache (ids.foldl (fun acc i => setAdd i acc) results) invoked
      refine ⟨results2, ?_, ?_⟩
      · rw [genLoop, hm]; exact hloop
      · intro i
        rw [hiff i, mem_foldl_setAdd]
        constructor
        · rintro ((h | h) | ⟨g, hg, hi⟩)
          · exact Or.inl h
          · exact Or.inr ⟨gen, List.mem_cons_self _ _, by rw [hm]; exact h⟩
          · exact Or.inr ⟨g, List.mem_cons_of_mem _ hg, hi⟩
        · rintro (h | ⟨g, hg, hi⟩)
          · exact Or.inl (Or.inl h)
          · rcases List.mem_cons.1 hg with rfl | hg2
            · rw [hm] at hi
              exact Or.inl (Or.inr hi)
            · exact Or.inr ⟨g, hg2, hi⟩
    | none =>
      obtain ⟨results2, hloop, hiff⟩ := ih cache results invoked
      refine ⟨results2, ?_, ?_⟩
      · rw [genLoop, hm]; exact hloop
      · intro i
        rw [hiff i]
        constructor
        · rintro (h | ⟨g, hg, hi⟩)
          · exact Or.inl h
          · exact Or.inr ⟨g, List.mem_cons_of_mem _ hg, hi⟩
        · rintro (h | ⟨g, hg, hi⟩)
          · exact Or.inl h
          · rcases List.mem_cons.1 hg with rfl | hg2
            · rw [hm] at hi; simp at hi
            · exact Or.inr ⟨g, hg2, hi⟩

theorem genLoopMemoized_spec (gens : List Generator) (co : Bool) :
    ∀ cache results invoked,
    (∀ g, g ∈ gens → (aFind g.name cache.identities_by_generator).isSome = true) →
    ∃ results2,
      genLoop cache results invoked co gens = .ok (cache, results2, invoked) ∧
      ∀ i, i ∈ results2 ↔ i ∈ results ∨
        ∃ g, g ∈ gens ∧ i ∈ (aFind g.name cache.identities_by_generator).getD [] := by
  induction gens with
  | nil =>
    intro cache results invoked _
    exact ⟨results, rfl, by simp⟩
  | cons gen rest ih =>
    intro cache results invoked hmemo
    obtain ⟨ids, hm⟩ :=
      Option.isSome_iff_exists.1 (hmemo gen (List.mem_cons_self _ _))
    obtain ⟨results2, hloop, hiff⟩ :=
      ih cache (ids.foldl (fun acc i => setAdd i acc) results) invoked
        (fun g hg => hmemo g (List.mem_cons_of_mem _ hg))
    refine ⟨results2, ?_, ?_⟩
    · rw [genLoop, hm]; exact hloop
    · intro i
      rw [hiff i, mem_foldl_setAdd]
      constructor
      · rintro ((h | h) | ⟨g, hg, hi⟩)
        · exact Or.inl h
        · exact Or.inr ⟨gen, List.mem_cons_self _ _, by rw [hm]; exact h⟩
        · exact Or.inr ⟨g, List.mem_cons_of_mem _ hg, hi⟩
      · rintro (h | ⟨g, hg, hi⟩)
        · exact Or.inl (Or.inl h)
        · rcases List.mem_cons.1 hg with rfl | hg2
          · rw [hm] at hi
            exact Or.inl (Or.inr hi)
          · exact Or.inr ⟨g, hg2, hi⟩

theorem yieldLoop_spec (cache : EntityCache) (cls : EClass) :
    ∀ res, (∀ i, i ∈ res → (aFind i cache.entities_by_identity).isSome = true) →
    ∃ out, yieldLoop cache cls res = .ok out ∧
      ∀ e, e ∈ out ↔
        (∃ i, i ∈ res ∧ aFind i cache.entities_by_identity = some e) ∧
        isinstanceCls e.cls cls = true := by
  intro res
  induction res with
  | nil =>
    intro _
    exact ⟨[], rfl, by simp⟩
  | cons i rest ih =>
    intro hpres
    obtain ⟨e0, hfind⟩ :=
      Option.isSome_iff_exists.1 (hpres i (List.mem_cons_self _ _))
    obtain ⟨out, hloop, hiff⟩ := ih (fun j hj => hpres j (List.mem_cons_of_mem _ hj))
    refine ⟨if isinstanceCls e0.cls cls then e0 :: out else out, ?_, ?_⟩
    · simp only [yieldLoop, hfind, hloop]
    · intro e
      by_cases hinst : isinstanceCls e0.cls cls = true
      · rw [if_pos hinst, List.mem_cons]
        constructor
        · rintro (rfl | he)
          · exact ⟨⟨i, List.mem_cons_self _ _, hfind⟩, hinst⟩
          · obtain ⟨⟨j, hj, hfj⟩, hi⟩ := (hiff e).1 he
            exact ⟨⟨j, List.mem_cons_of_mem _ hj, hfj⟩, hi⟩
        · rintro ⟨⟨j, hj, hfj⟩, hi⟩
          rcases List.mem_cons.1 hj with rfl | hj2
          · rw [hfind] at hfj
            injection hfj with h2
            exact Or.inl h2.symm
          · exact Or.inr ((hiff e).2 ⟨⟨j, hj2, hfj⟩, hi⟩)
      · rw [if_neg hinst]
        constructor
        · intro he
          obtain ⟨⟨j, hj, hfj⟩, hi⟩ := (hiff e).1 he
          exact ⟨⟨j, List.mem_cons_of_mem _ hj, hfj⟩, hi⟩
        · rintro ⟨⟨j, hj, hfj⟩, hi⟩
          rcases List.mem_cons.1 hj with rfl | hj2
          · rw [hfind] at hfj
            injection hfj with h2
            subst h2
            exact absurd hi hinst
          · exact (hiff e).2 ⟨⟨j, hj2, hfj⟩, hi⟩

theorem genLoopFull_spec (gens : List Generator) :
    ∀ cache results invoked, WfIdent cache → WfMemo cache →
    (∀ i, i ∈ results → (aFind i cache.entities_by_identity).isSome = true) →
    ∃ cache2 results2 invoked2,
      genLoop cache results invoked false gens = .ok (cache2, results2, invoked2) ∧
      WfIdent cache2 ∧ WfMemo cache2 ∧
      (∀ j, (aFind j cache.entities_by_identity).isSome = true →
        (aFind j cache2.entities_by_identity).isSome = true) ∧
      (∀ i, i ∈ results → i ∈ results2) ∧
      (∀ g ids, aFind g cache.identities_by_generator = some ids →
        ∃ ids2, aFind g cache2.identities_by_generator = some ids2 ∧
          ∀ i, i ∈ ids → i ∈ ids2) ∧
      (∀ g, g ∈ gens → ∀ ids,
        aFind g.name cache.identities_by_generator = some ids →
        ∀ i, i ∈ ids → i ∈ results2) ∧
      (∀ i, i ∈ results2 → (aFind i cache2.entities_by_identity).isSome = true) ∧
      (∀ i e0, aFind i cache.entities_by_identity = some e0 → e0.cls = .base →
        ∃ e1, aFind i cache2.entities_by_identity = some e1 ∧ e1.cls = .base) := by
  induction gens with
  | nil =>
    intro cache results invoked hw hm hpres
    exact ⟨cache, results, invoked, rfl, hw, hm, fun _ h => h, fun _ h => h,
      fun g ids h => ⟨ids, h, fun _ h2 => h2⟩, by simp, hpres,
      fun i e0 h0 hb => ⟨e0, h0, hb⟩⟩
  | cons gen rest ih =>
    intro cache results invoked hw hm hpres
    cases hmg : aFind gen.name cache.identities_by_generator with
    | some ids =>
      have hpres1 : ∀ i, i ∈ ids.foldl (fun acc i => setAdd i acc) results →
          (aFind i cache.entities_by_identity).isSome = true := by
        intro i hi
        rcases (mem_foldl_setAdd ids results).1 hi with h | h
        · exact hpres i h
        · exact hm _ _ hmg i h
      obtain ⟨cache2, results2, invoked2, hloop, hw2, hm2, hbymono, hresmono,
        hmemomono, hmemres, hpres2, hbase2⟩ := ih cache _ invoked hw hm hpres1
      refine ⟨cache2, results2, invoked2, ?_, hw2, hm2, hbymono, ?_,
        hmemomono, ?_, hpres2, hbase2⟩
      · rw [genLoop, hmg]; exact hloop
      · intro i hi
        exact hresmono i ((mem_foldl_setAdd ids results).2 (Or.inl hi))
      · intro g hg ids0 hids0 i hi
        rcases List.mem_cons.1 hg with rfl | hg2
        · rw [hmg] at hids0
          injection hids0 with h2
          subst h2
          exact hresmono i ((mem_foldl_setAdd ids results).2 (Or.inr hi))
        · exact hmemres g hg2 ids0 hids0 i hi
    | none =>
      obtain ⟨cache1, results1, hrloop, hw1, hm1f, hres1, hby1, hgsome1, hgset1,
        hgne1, hbase1⟩ := regLoop_spec gen.name gen.output cache results hw
      have hm1 : WfMemo cache1 := hm1f hm
      have hpres1 : ∀ i, i ∈ results1 →
          (aFind i cache1.entities_by_identity).isSome = true := by
        intro i hi
        rcases (hres1 i).1 hi with h | h
        · exact (hby1 i).2 (Or.inl (hpres i h))
        · exact (hby1 i).2 (Or.inr h)
      obtain ⟨cache2, results2, invoked2, hloop, hw2, hm2, hbymono, hresmono,
        hmemomono, hmemres, hpres2, hbase2⟩ :=
        ih cache1 results1 (invoked ++ [gen.name]) hw1 hm1 hpres1
      refine ⟨cache2, results2, invoked2, ?_, hw2, hm2, ?_, ?_, ?_, ?_, hpres2, ?_⟩
      · rw [genLoop, hmg, hrloop]
        exact hloop
      · intro j hj
        exact hbymono j ((hby1 j).2 (Or.inl hj))
      · intro i hi
        exact hresmono i ((hres1 i).2 (Or.inl hi))
      · intro g ids0 hids0
        by_cases hgn : g = gen.name
        · subst hgn
          rw [hmg] at hids0
          cases hids0
        · exact hmemomono g ids0 (by rw [hgne1 g hgn]; exact hids0)
      · intro g hg ids0 hids0 i hi
        rcases List.mem_cons.1 hg with rfl | hg2
        · rw [hmg] at hids0
          cases hids0
        · by_cases hgn : g.name = gen.name
          · rw [hgn, hmg] at hids0
            cases hids0
          · exact hmemres g hg2 ids0 (by rw [hgne1 g.name hgn]; exact hids0) i hi
      · intro i e0 h0 hb
        obtain ⟨e1, h1, hb1⟩ := hbase1 i e0 h0 hb
        exact hbase2 i e1 h1 hb1

theorem genLoopFirst_spec (gens : List Generator) :
    ∀ cache results invoked, WfIdent cache →
    (gens.map Generator.name).Nodup →
    (∀ g, g ∈ gens → aFind g.name cache.identities_by_generator = none) →
    ∃ cache2 results2,
      genLoop cache results invoked false gens =
        .ok (cache2, results2, invoked ++ gens.map Generator.name) ∧
      WfIdent cache2 ∧
      (∀ i, i ∈ results2 ↔ i ∈ results ∨
        ∃ g, g ∈ gens ∧ i ∈ g.output.map Entity.identity) ∧
      (∀ g, g ∈ gens → ∀ i,
        i ∈ (aFind g.name cache2.identities_by_generator).getD [] ↔
          i ∈ g.output.map Entity.identity) ∧
      (∀ g, g ∈ gens →
        ((aFind g.name cache2.identities_by_generator).isSome = true ↔
          g.output ≠ [])) ∧
      (∀ j, (aFind j cache2.entities_by_identity).isSome = true ↔
        (aFind j cache.entities_by_identity).isSome = true ∨
          ∃ g, g ∈ gens ∧ j ∈ g.output.map Entity.identity) ∧
      (∀ g2, (∀ g, g ∈ gens → g2 ≠ g.name) →
        aFind g2 cache2.identities_by_generator =
          aFind g2 cache.identities_by_generator) := by
  induction gens with
  | nil =>
    intro cache results invoked hw _ _
    exact ⟨cache, results, by simp [genLoop], hw, by simp, by simp, by simp,
      by simp, fun _ _ => rfl⟩
  | cons gen rest ih =>
    intro cache results invoked hw hnd hnomemo
    have hmg : aFind gen.name cache.identities_by_generator = none :=
      hnomemo gen (List.mem_cons_self _ _)
    obtain ⟨cache1, results1, hrloop, hw1, _, hres1, hby1, hgsome1, hgset1,
      hgne1, _⟩ := regLoop_spec gen.name gen.output cache results hw
    have hnotin : gen.name ∉ rest.map Generator.name := by
      rw [List.map_cons] at hnd
      exact (List.nodup_cons.1 hnd).1
    have hnd2 : (rest.map Generator.name).Nodup := by
      rw [List.map_cons] at hnd
      exact (List.nodup_cons.1 hnd).2
    have hnomemo1 : ∀ g, g ∈ rest →
        aFind g.name cache1.identities_by_generator = none := by
      intro g hg
      have hne : g.name ≠ gen.name := by
        intro hcon
        exact hnotin (hcon ▸ List.mem_map_of_mem Generator.name hg)
      rw [hgne1 g.name hne]
      exact hnomemo g (List.mem_cons_of_mem _ hg)
    obtain ⟨cache2, results2, hloop, hw2, hres2, hgset2, hgsome2, hby2, hgne2⟩ :=
      ih cache1 results1 (invoked ++ [gen.name]) hw1 hnd2 hnomemo1
    have hgenkeep : aFind gen.name cache2.identities_by_generator =
        aFind gen.name cache1.identities_by_generator := by
      refine hgne2 gen.name ?_
      intro g hg hcon
      exact hnotin (hcon ▸ List.mem_map_of_mem Generator.name hg)
    refine ⟨cache2, results2, ?_, hw2, ?_, ?_, ?_, ?_, ?_⟩
    · have heq : invoked ++ List.map Generator.name (gen :: rest) =
          invoked ++ [gen.name] ++ List.map Generator.name rest := by simp
      rw [genLoop, hmg, hrloop, heq]
      exact hloop
    · intro i
      rw [hres2 i]
      constructor
      · rintro (h | ⟨g, hg, hi⟩)
        · rcases (hres1 i).1 h with h2 | h2
          · exact Or.inl h2
          · exact Or.inr ⟨gen, List.mem_cons_self _ _, h2⟩
        · exact Or.inr ⟨g, List.mem_cons_of_mem _ hg, hi⟩
      · rintro (h | ⟨g, hg, hi⟩)
        · exact Or.inl ((hres1 i).2 (Or.inl h))
        · rcases List.mem_cons.1 hg with rfl | hg2
          · exact Or.inl ((hres1 i).2 (Or.inr hi))
          · exact Or.inr ⟨g, hg2, hi⟩
    · intro g hg i
      rcases List.mem_cons.1 hg with rfl | hg2
      · rw [hgenkeep, hgset1 i, hmg]
        simp
      · exact hgset2 g hg2 i
    · intro g hg
      rcases List.mem_cons.1 hg with rfl | hg2
      · rw [hgenkeep, hgsome1, hmg]
        simp
      · exact hgsome2 g hg2
    · intro j
      rw [hby2 j, hby1 j]
      constructor
      · rintro ((h | h) | ⟨g, hg, hi⟩)
        · exact Or.inl h
        · exact Or.inr ⟨gen, List.mem_cons_self _ _, h⟩
        · exact Or.inr ⟨g, List.mem_cons_of_mem _ hg, hi⟩
      · rintro (h | ⟨g, hg, hi⟩)
        · exact Or.inl (Or.inl h)
        · rcases List.mem_cons.1 hg with rfl | hg2
          · exact Or.inl (Or.inr hi)
          · exact Or.inr ⟨g, hg2, hi⟩
    · intro g2 hg2
      rw [hgne2 g2 (fun g hg => hg2 g (List.mem_cons_of_mem _ hg)),
        hgne1 g2 (hg2 gen (List.mem_cons_self _ _))]

theorem generate_eq {cache : EntityCache} {sess : Session} {cls : EClass}
    {incl co : Bool} {cache2 : EntityCache} {res : List Identity}
    {inv : List String} {out : List Entity}
    (hg : genLoop cache [] [] co (sess.profile.entity_generators cls incl) =
      .ok (cache2, res, inv))
    (hy : yieldLoop cache2 cls res = .ok out) :
    cache.generate_entities sess cls incl co = .ok (out, cache2, inv) := by
  unfold EntityCache.generate_entities
  simp only [hg, hy]

/-- Claim C3 counterexample: a contributing collector that yields no
entities is never memoized, so the second find invokes it again — the
invocation traces of the two successive calls are both nonempty, the
collector runs twice in total, not exactly once. -/
theorem memoization_counterexample :
    ∃ c1, EntityCache.new.generate_entities exSessEmpty .base true false =
        .ok ([], c1, ["empty_gen"]) ∧
      c1.generate_entities exSessEmpty .base true false =
        .ok ([], c1, ["empty_gen"]) :=
  ⟨EntityCache.new, rfl, rfl⟩

/-- Claim C3 (amended): on a fresh session, when every contributing
collector yields at least one entity, the first find invokes each
collector exactly once, records it in the memo table, and the second
find invokes none of them and returns the same entity set from the
memo plus the identity table. -/
theorem collector_memoization (gens : List Generator) (cls : EClass) (incl : Bool)
    (hnd : (gens.map Generator.name).Nodup)
    (hne : ∀ g, g ∈ gens → g.output ≠ []) :
    ∃ out1 c1 out2,
      EntityCache.new.generate_entities (sessionOf gens) cls incl false =
        .ok (out1, c1, gens.map Generator.name) ∧
      c1.generate_entities (sessionOf gens) cls incl false = .ok (out2, c1, []) ∧
      ∀ e, e ∈ out2 ↔ e ∈ out1 := by
  have hwnew : WfIdent EntityCache.new := by
    intro i e h
    simp [EntityCache.new, aFind] at h
  obtain ⟨c1, res1, hloop1, hw1, hres1, hgset1, hgsome1, hby1, _⟩ :=
    genLoopFirst_spec gens EntityCache.new [] [] hwnew hnd (fun g _ => rfl)
  rw [List.nil_append] at hloop1
  have hpres1 : ∀ i, i ∈ res1 → (aFind i c1.entities_by_identity).isSome = true := by
    intro i hi
    rw [hby1 i]
    rcases (hres1 i).1 hi with h | h
    · simp at h
    · exact Or.inr h
  obtain ⟨out1, hy1, hiff1⟩ := yieldLoop_spec c1 cls res1 hpres1
  have hgen1 : EntityCache.new.generate_entities (sessionOf gens) cls incl false =
      .ok (out1, c1, gens.map Generator.name) :=
    generate_eq hloop1 hy1
  have hmemoized : ∀ g, g ∈ gens →
      (aFind g.name c1.identities_by_generator).isSome = true := by
    intro g hg
    rw [hgsome1 g hg]
    exact hne g hg
  obtain ⟨res2, hloop2, hres2iff⟩ := genLoopMemoized_spec gens false c1 [] [] hmemoized
  have hpres2 : ∀ i, i ∈ res2 → (aFind i c1.entities_by_identity).isSome = true := by
    intro i hi
    rcases (hres2iff i).1 hi with h | ⟨g, hg, hgd⟩
    · simp at h
    · rw [hby1 i]
      exact Or.inr ⟨g, hg, (hgset1 g hg i).1 hgd⟩
  obtain ⟨out2, hy2, hiff2⟩ := yieldLoop_spec c1 cls res2 hpres2
  have hgen2 : c1.generate_entities (sessionOf gens) cls incl false =
      .ok (out2, c1, []) :=
    generate_eq hloop2 hy2
  refine ⟨out1, c1, out2, hgen1, hgen2, ?_⟩
  have hsets : ∀ i, i ∈ res2 ↔ i ∈ res1 := by
    intro i
    rw [hres2iff i, hres1 i]
    simp only [List.not_mem_nil, false_or]
    constructor
    · rintro ⟨g, hg, hgd⟩
      exact ⟨g, hg, (hgset1 g hg i).1 hgd⟩
    · rintro ⟨g, hg, hout⟩
      exact ⟨g, hg, (hgset1 g hg i).2 hout⟩
  intro e
  rw [hiff2 e, hiff1 e]
  constructor
  · rintro ⟨⟨i, hi, hf⟩, hinst⟩
    exact ⟨⟨i, (hsets i).1 hi, hf⟩, hinst⟩
  · rintro ⟨⟨i, hi, hf⟩, hinst⟩
    exact ⟨⟨i, (hsets i).2 hi, hf⟩, hinst⟩

/-- Witness for claim C3 at a concrete one-collector session. -/
theorem collector_memoization_witness :
    ∃ out1 c1 out2,
      EntityCache.new.generate_entities (sessionOf [exGenOne]) .base true false =
        .ok (out1, c1, [exGenOne].map Generator.name) ∧
      c1.generate_entities (sessionOf [exGenOne]) .base true false =
        .ok (out2, c1, []) ∧
      ∀ e, e ∈ out2 ↔ e ∈ out1 :=
  collector_memoization [exGenOne] .base true (by decide) (by decide)

theorem retLoopCO_spec (ecls : Option EClass) (cache : EntityCache) :
    ∀ ks, retLoop ecls true cache ks =
      .ok (ks.filterMap (fun k => aFind k cache.entities_by_identity), cache) := by
  intro ks
  induction ks with
  | nil => rfl
  | cons k rest ih =>
    cases hf : aFind k cache.entities_by_identity with
    | some e => simp [retLoop, BaseObjectIdentity, hf, ih, List.filterMap_cons]
    | none => simp [retLoop, BaseObjectIdentity, hf, ih, List.filterMap_cons]

theorem retLoopFull_spec (cls : EClass) :
    ∀ ks cache, WfIdent cache →
    ∃ out cache2, retLoop (some cls) false cache ks = .ok (out, cache2) ∧
      WfIdent cache2 ∧ identsOf out = ks := by
  intro ks
  induction ks with
  | nil =>
    intro cache hw
    exact ⟨[], cache, rfl, hw, rfl⟩
  | cons k rest ih =>
    intro cache hw
    cases hf : aFind k cache.entities_by_identity with
    | some e =>
      obtain ⟨out, cache2, hloop, hw2, hids⟩ := ih cache hw
      refine ⟨e :: out, cache2, ?_, hw2, ?_⟩
      · simp [retLoop, BaseObjectIdentity, hf, hloop]
      · simp only [identsOf, List.map_cons] at hids ⊢
        rw [hids, hw _ _ hf]
    | none =>
      have hfreshc : aFind (entityConstruct cls k).identity
          cache.entities_by_identity = none := hf
      have hreg := register_fresh (g := "Session") hfreshc
      have hw1 : WfIdent (cache.store (entityConstruct cls k).identity
          ((entityConstruct cls k).withRegAttrs "Session") "Session") :=
        store_wfIdent hw rfl
      obtain ⟨out, cache2, hloop, hw2, hids⟩ := ih _ hw1
      refine ⟨(entityConstruct cls k).withRegAttrs "Session" :: out, cache2, ?_, hw2, ?_⟩
      · simp [retLoop, BaseObjectIdentity, hf, hreg, hloop]
      · simp only [identsOf, List.map_cons] at hids ⊢
        rw [hids]
        rfl

theorem wfCacheB_wfIdent {cache : EntityCache} (h : wfCacheB cache = true) :
    WfIdent cache := by
  intro i e hf
  rw [wfCacheB, Bool.and_eq_true] at h
  have h1 := h.1
  rw [wfIdentB, List.all_eq_true] at h1
  exact of_decide_eq_true (h1 (i, e) (aFind_mem hf))

theorem wfCacheB_wfMemo {cache : EntityCache} (h : wfCacheB cache = true) :
    WfMemo cache := by
  intro g ids hf i hi
  rw [wfCacheB, Bool.and_eq_true] at h
  have h1 := h.2
  rw [wfMemoB, List.all_eq_true] at h1
  have h2 := h1 (g, ids) (aFind_mem hf)
  rw [List.all_eq_true] at h2
  exact h2 i hi

/-- Claim C8 counterexample: resolving a Superposition of two
unregistered identities with cache_only left at its default (false)
does not return an empty result — the code constructs and registers a
provisional entity per variant and yields both. -/
theorem superposition_counterexample :
    ∃ e1 e2 c2,
      EntityCache.new.retrieve_entities (some .base) (.superposition [1, 2]) false =
        .ok ([e1, e2], c2) ∧ e1.identity = 1 ∧ e2.identity = 2 :=
  ⟨_, _, _, rfl, rfl, rfl⟩

/-- Claim C8 (amended): under cache_only resolution a Superposition of
identities yields exactly the registered variants: one entity when only
A is registered, an empty result when neither is, and never an error
for any variant list; unregistered variants are silently skipped. -/
theorem superposition_expansion (cache : EntityCache) (ecls : Option EClass)
    (A B : Identity) (eA : Entity)
    (hA : aFind A cache.entities_by_identity = some eA)
    (hB : aFind B cache.entities_by_identity = none) :
    cache.retrieve_entities ecls (.superposition [A, B]) true = .ok ([eA], cache) ∧
    (∀ A2 B2, aFind A2 cache.entities_by_identity = none →
      aFind B2 cache.entities_by_identity = none →
      cache.retrieve_entities ecls (.superposition [A2, B2]) true = .ok ([], cache)) ∧
    (∀ vs, ∃ out,
      cache.retrieve_entities ecls (.superposition vs) true = .ok (out, cache)) := by
  refine ⟨?_, ?_, ?_⟩
  · show retLoop ecls true cache [A, B] = .ok ([eA], cache)
    rw [retLoopCO_spec]
    simp [List.filterMap_cons, hA, hB]
  · intro A2 B2 h1 h2
    show retLoop ecls true cache [A2, B2] = .ok ([], cache)
    rw [retLoopCO_spec]
    simp [List.filterMap_cons, h1, h2]
  · intro vs
    exact ⟨_, retLoopCO_spec ecls cache vs⟩

/-- Witness for claim C8 on a concrete cache where identity 1 is
registered and identity 2 is not. -/
theorem superposition_expansion_witness :
    exCacheSub.retrieve_entities (some .base) (.superposition [1, 2]) true =
      .ok ([exESub], exCacheSub) ∧
    (∀ A2 B2, aFind A2 exCacheSub.entities_by_identity = none →
      aFind B2 exCacheSub.entities_by_identity = none →
      exCacheSub.retrieve_entities (some .base) (.superposition [A2, B2]) true =
        .ok ([], exCacheSub)) ∧
    (∀ vs, ∃ out,
      exCacheSub.retrieve_entities (some .base) (.superposition vs) true =
        .ok (out, exCacheSub)) :=
  superposition_expansion exCacheSub (some .base) 1 2 exESub rfl rfl

/-- Claim C7 counterexample: from a cache holding a subclass entity for
identity 1 (memoized under collector A), a cache-only query for the
subclass returns that entity, but the same query without cache_only
runs collector B, whose observation of identity 1 merges the stored
entity down to a plain Entity, so the isinstance filter drops it — the
cache-only result set is not a subset of the full result set. -/
theorem cache_only_counterexample :
    ∃ cF,
      exCacheSub.generate_entities exSessAB (.sub 0) true true =
        .ok ([exESub], exCacheSub, []) ∧
      exCacheSub.generate_entities exSessAB (.sub 0) true false =
        .ok ([], cF, ["B"]) ∧
      listSubset (identsOf [exESub]) (identsOf ([] : List Entity)) = false :=
  ⟨_, rfl, rfl, rfl⟩

/-- Claim C7 (amended): a cache_only find never changes either cache
table and invokes no generator, on every dispatch path; the identity
subset property holds for kind queries at the base Entity class, and
for key-object queries; proper-subclass kind queries can violate it
when the full run merges a cached subclass entity down to Entity. -/
theorem cache_only_frame (cache : EntityCache) (sess : Session) :
    (∀ ecls kobj incl out c2 inv,
      cache.find sess ecls kobj incl true = .ok (out, c2, inv) →
      c2 = cache ∧ inv = []) ∧
    (wfCacheB cache = true → ∀ incl,
      ∃ outT outF cF invF,
        cache.generate_entities sess .base incl true = .ok (outT, cache, []) ∧
        cache.generate_entities sess .base incl false = .ok (outF, cF, invF) ∧
        ∀ i, i ∈ identsOf outT → i ∈ identsOf outF) ∧
    (wfCacheB cache = true → ∀ cls vs,
      ∃ outT outF cF,
        cache.retrieve_entities (some cls) (.superposition vs) true =
          .ok (outT, cache) ∧
        cache.retrieve_entities (some cls) (.superposition vs) false =
          .ok (outF, cF) ∧
        ∀ i, i ∈ identsOf outT → i ∈ identsOf outF) := by
  refine ⟨?_, ?_, ?_⟩
  · intro ecls kobj incl out c2 inv h
    cases kobj with
    | noneK =>
      cases ecls with
      | none =>
        simp only [EntityCache.find, Except.ok.injEq, Prod.mk.injEq] at h
        exact ⟨h.2.1.symm, h.2.2.symm⟩
      | some c =>
        obtain ⟨res2, hco, _⟩ :=
          genLoopCO_spec (sess.profile.entity_generators c incl) cache [] []
        simp only [EntityCache.find, EntityCache.generate_entities, hco] at h
        cases hy : yieldLoop cache c res2 with
        | error msg => rw [hy] at h; cases h
        | ok outy =>
          rw [hy] at h
          simp only [Except.ok.injEq, Prod.mk.injEq] at h
          exact ⟨h.2.1.symm, h.2.2.symm⟩
    | single k =>
      have hret := retLoopCO_spec ecls cache [k]
      simp only [EntityCache.find, EntityCache.retrieve_entities, hret,
        Except.ok.injEq, Prod.mk.injEq] at h
      exact ⟨h.2.1.symm, h.2.2.symm⟩
    | superposition vs =>
      have hret := retLoopCO_spec ecls cache vs
      simp only [EntityCache.find, EntityCache.retrieve_entities, hret,
        Except.ok.injEq, Prod.mk.injEq] at h
      exact ⟨h.2.1.symm, h.2.2.symm⟩
  · intro hwb incl
    have hw := wfCacheB_wfIdent hwb
    have hm := wfCacheB_wfMemo hwb
    obtain ⟨resT, hcoloop, hcoiff⟩ :=
      genLoopCO_spec (sess.profile.entity_generators .base incl) cache [] []
    have hpresT : ∀ i, i ∈ resT →
        (aFind i cache.entities_by_identity).isSome = true := by
      intro i hi
      rcases (hcoiff i).1 hi with h | ⟨g, hg, hgd⟩
      · simp at h
      · cases hmg : aFind g.name cache.identities_by_generator with
        | none => rw [hmg] at hgd; simp at hgd
        | some ids =>
          rw [hmg] at hgd
          simp only [Option.getD_some] at hgd
          exact hm _ _ hmg i hgd
    obtain ⟨outT, hyT, hiffT⟩ := yieldLoop_spec cache .base resT hpresT
    have hgenT : cache.generate_entities sess .base incl true =
        .ok (outT, cache, []) := generate_eq hcoloop hyT
    obtain ⟨cF, resF, invF, hfloop, hwF, _, _, _, _, hmemresF, hpresF, _⟩ :=
      genLoopFull_spec (sess.profile.entity_generators .base incl) cache [] []
        hw hm (by simp)
    obtain ⟨outF, hyF, hiffF⟩ := yieldLoop_spec cF .base resF hpresF
    have hgenF : cache.generate_entities sess .base incl false =
        .ok (outF, cF, invF) := generate_eq hfloop hyF
    refine ⟨outT, outF, cF, invF, hgenT, hgenF, ?_⟩
    intro i hi
    rw [identsOf, List.mem_map] at hi
    obtain ⟨e, he, rfl⟩ := hi
    obtain ⟨⟨j, hj, hfj⟩, _⟩ := (hiffT e).1 he
    have hejid : e.identity = j := hw _ _ hfj
    rcases (hcoiff j).1 hj with h | ⟨g, hg, hgd⟩
    · simp at h
    · cases hmg : aFind g.name cache.identities_by_generator with
      | none => rw [hmg] at hgd; simp at hgd
      | some ids =>
        rw [hmg] at hgd
        simp only [Option.getD_some] at hgd
        have hjresF : j ∈ resF := hmemresF g hg ids hmg j hgd
        obtain ⟨eF, hfeF⟩ := Option.isSome_iff_exists.1 (hpresF j hjresF)
        have heFout : eF ∈ outF := (hiffF eF).2 ⟨⟨j, hjresF, hfeF⟩, rfl⟩
        have heFid : eF.identity = j := hwF _ _ hfeF
        rw [identsOf, List.mem_map]
        exact ⟨eF, heFout, by rw [heFid, hejid]⟩
  · intro hwb cls vs
    have hw := wfCacheB_wfIdent hwb
    have hT := retLoopCO_spec (some cls) cache vs
    obtain ⟨outF, cF, hFloop, hwF, hidsF⟩ := retLoopFull_spec cls vs cache hw
    refine ⟨_, outF, cF, hT, hFloop, ?_⟩
    intro i hi
    rw [identsOf, List.mem_map] at hi
    obtain ⟨e, he, rfl⟩ := hi
    rw [List.mem_filterMap] at he
    obtain ⟨k, hk, hfk⟩ := he
    rw [hidsF, hw _ _ hfk]
    exact hk

/-- Witness for claim C7 at a concrete cache and session. -/
theorem cache_only_frame_witness :
    ((EntityCache.new.find exSessEmpty (some .base) .noneK true true =
        .ok ([], EntityCache.new, []) →
      (EntityCache.new : EntityCache) = EntityCache.new ∧ ([] : List String) = []) ∧
     (∃ outT outF cF invF,
        exCacheSub.generate_entities exSessAB .base true true =
          .ok (outT, exCacheSub, []) ∧
        exCacheSub.generate_entities exSessAB .base true false =
          .ok (outF, cF, invF) ∧
        ∀ i, i ∈ identsOf outT → i ∈ identsOf outF) ∧
     (∃ outT outF cF,
        exCacheSub.retrieve_entities (some .base) (.superposition [1, 2]) true =
          .ok (outT, exCacheSub) ∧
        exCacheSub.retrieve_entities (some .base) (.superposition [1, 2]) false =
          .ok (outF, cF) ∧
        ∀ i, i ∈ identsOf outT → i ∈ identsOf outF)) :=
  ⟨fun h => (cache_only_frame EntityCache.new exSessEmpty).1
      (some .base) .noneK true [] EntityCache.new [] h,
   (cache_only_frame exCacheSub exSessAB).2.1 (by decide) true,
   (cache_only_frame exCacheSub exSessAB).2.2 (by decide) .base [1, 2]⟩

theorem generate_ok_unpack {cache : EntityCache} {sess : Session} {cls : EClass}
    {incl co : Bool} {out : List Entity} {cg : EntityCache} {inv : List String}
    (h : cache.generate_entities sess cls incl co = .ok (out, cg, inv)) :
    ∃ res, genLoop cache [] [] co (sess.profile.entity_generators cls incl) =
        .ok (cg, res, inv) ∧
      yieldLoop cg cls res = .ok out := by
  unfold EntityCache.generate_entities at h
  cases hg : genLoop cache [] [] co (sess.profile.entity_generators cls incl) with
  | error msg => simp [hg] at h
  | ok t =>
    obtain ⟨cg2, res, inv2⟩ := t
    simp only [hg] at h
    cases hy : yieldLoop cg2 cls res with
    | error msg => simp [hy] at h
    | ok out2 =>
      simp only [hy, Except.ok.injEq, Prod.mk.injEq] at h
      obtain ⟨rfl, rfl, rfl⟩ := h
      exact ⟨res, rfl, hy⟩

theorem yieldLoop_mem_ok {cache : EntityCache} {cls : EClass} :
    ∀ {res : List Identity} {out : List Entity},
    yieldLoop cache cls res = .ok out →
    ∀ e, e ∈ out →
      (∃ i, i ∈ res ∧ aFind i cache.entities_by_identity = some e) ∧
      isinstanceCls e.cls cls = true := by
  intro res
  induction res with
  | nil =>
    intro out h e he
    simp only [yieldLoop, Except.ok.injEq] at h
    subst h
    simp at he
  | cons i rest ih =>
    intro out h e he
    rw [yieldLoop] at h
    cases hf : aFind i cache.entities_by_identity with
    | none =>
      rw [hf] at h
      exact Except.noConfusion h
    | some e0 =>
      rw [hf] at h
      cases hy : yieldLoop cache cls rest with
      | error msg =>
        rw [hy] at h
        exact Except.noConfusion h
      | ok out2 =>
        rw [hy] at h
        simp only [Except.ok.injEq] at h
        subst h
        by_cases hinst : isinstanceCls e0.cls cls = true
        · rw [if_pos hinst] at he
          rcases List.mem_cons.1 he with rfl | he2
          · exact ⟨⟨i, List.mem_cons_self _ _, hf⟩, hinst⟩
          · obtain ⟨⟨j, hj, hfj⟩, hi2⟩ := ih hy e he2
            exact ⟨⟨j, List.mem_cons_of_mem _ hj, hfj⟩, hi2⟩
        · rw [if_neg hinst] at he
          obtain ⟨⟨j, hj, hfj⟩, hi2⟩ := ih hy e he
          exact ⟨⟨j, List.mem_cons_of_mem _ hj, hfj⟩, hi2⟩

theorem genLoop_pres (gens : List Generator) :
    ∀ cache res inv co cache2 res2 inv2,
    genLoop cache res inv co gens = .ok (cache2, res2, inv2) → WfIdent cache →
    WfIdent cache2 ∧
    (∀ i e0, aFind i cache.entities_by_identity = some e0 → e0.cls = .base →
      ∃ e1, aFind i cache2.entities_by_identity = some e1 ∧ e1.cls = .base) := by
  induction gens with
  | nil =>
    intro cache res inv co cache2 res2 inv2 h hw
    simp only [genLoop, Except.ok.injEq, Prod.mk.injEq] at h
    obtain ⟨rfl, _, _⟩ := h
    exact ⟨hw, fun i e0 h0 hb => ⟨e0, h0, hb⟩⟩
  | cons gen rest ih =>
    intro cache res inv co cache2 res2 inv2 h hw
    rw [genLoop] at h
    cases hmg : aFind gen.name cache.identities_by_generator with
    | some ids =>
      rw [hmg] at h
      exact ih _ _ _ _ _ _ _ h hw
    | none =>
      rw [hmg] at h
      cases co with
      | true =>
        rw [if_pos rfl] at h
        exact ih _ _ _ _ _ _ _ h hw
      | false =>
        rw [if_neg Bool.false_ne_true] at h
        obtain ⟨cacheA, resA, hloopA, hwA, _, _, _, _, _, _, hbaseA⟩ :=
          regLoop_spec gen.name gen.output cache res hw
        rw [hloopA] at h
        obtain ⟨hw2, hbase2⟩ := ih _ _ _ _ _ _ _ h hwA
        refine ⟨hw2, ?_⟩
        intro i e0 h0 hb
        obtain ⟨e1, h1, hb1⟩ := hbaseA i e0 h0 hb
        exact hbase2 i e1 h1 hb1

/-- Claim C10: Entity.merge always constructs its result via the base
Entity class; after an identity first registered as a subclass instance
is merged with a second observation, the stored entity is a plain
Entity, and every subsequent kind query for a proper subclass excludes
that identity from its results. -/
theorem merge_demotes_subclass (x y : Entity) (cache : EntityCache)
    (e1 e2 : Entity) (g1 g2 : String) (n : Nat)
    (hw : WfIdent cache)
    (_hcls : e1.cls = .sub n)
    (hfresh : aFind e1.identity cache.entities_by_identity = none)
    (hid : e2.identity = e1.identity) :
    (∀ m, Entity.merge x y = .ok m → m.cls = .base) ∧
    ∃ c1 c2 stored,
      cache.register_entity e1 g1 = .ok c1 ∧
      c1.register_entity e2 g2 = .ok c2 ∧
      aFind e1.identity c2.entities_by_identity = some stored ∧
      stored.cls = .base ∧
      (∀ sess m incl co out cg inv,
        c2.generate_entities sess (.sub m) incl co = .ok (out, cg, inv) →
        e1.identity ∉ identsOf out) := by
  constructor
  · intro m hm
    unfold Entity.merge at hm
    by_cases hne : Entity.neE x y = true
    · rw [if_pos hne] at hm
      exact Except.noConfusion hm
    · rw [if_neg hne] at hm
      simp only [Except.ok.injEq] at hm
      rw [← hm]
      rfl
  · have hr1 := register_fresh (g := g1) hfresh
    have hfind1 : aFind e2.identity
        (cache.store e1.identity (e1.withRegAttrs g1) g1).entities_by_identity =
        some (e1.withRegAttrs g1) := by
      rw [hid]; exact store_by_self _ _ _ _
    have hr2 := register_hit (g := g2) hfind1 (by rw [withRegAttrs_identity, hid])
    have hw1 : WfIdent (cache.store e1.identity (e1.withRegAttrs g1) g1) :=
      store_wfIdent hw rfl
    have hw2 : WfIdent ((cache.store e1.identity (e1.withRegAttrs g1) g1).store
        e2.identity
        (Entity.mergeRaw (e2.withRegAttrs g2) (e1.withRegAttrs g1)) g2) :=
      store_wfIdent hw1 rfl
    have hstored : aFind e1.identity
        ((cache.store e1.identity (e1.withRegAttrs g1) g1).store e2.identity
          (Entity.mergeRaw (e2.withRegAttrs g2) (e1.withRegAttrs g1))
          g2).entities_by_identity =
        some (Entity.mergeRaw (e2.withRegAttrs g2) (e1.withRegAttrs g1)) := by
      rw [← hid]
      exact store_by_self _ _ _ _
    refine ⟨_, _, Entity.mergeRaw (e2.withRegAttrs g2) (e1.withRegAttrs g1),
      hr1, hr2, hstored, rfl, ?_⟩
    intro sess m incl co out cg inv hgen hmem
    obtain ⟨res, hg, hy⟩ := generate_ok_unpack hgen
    obtain ⟨hwg, hbaseg⟩ := genLoop_pres _ _ _ _ _ _ _ _ hg hw2
    obtain ⟨eb, hfb, hbb⟩ := hbaseg e1.identity _ hstored rfl
    rw [identsOf, List.mem_map] at hmem
    obtain ⟨e, he, heid⟩ := hmem
    obtain ⟨⟨j, hj, hfj⟩, hinst⟩ := yieldLoop_mem_ok hy e he
    have hji : j = e1.identity := by rw [← heid]; exact (hwg _ _ hfj).symm
    rw [hji, hfb] at hfj
    injection hfj with hfj2
    rw [← hfj2, hbb] at hinst
    simp [isinstanceCls] at hinst

/-- Witness for claim C10: a subclass entity for identity 1 registered
on a fresh cache, then a second observation of the same identity. -/
theorem merge_demotes_subclass_witness :
    (∀ m, Entity.merge exEProc exENamed = .ok m → m.cls = .base) ∧
    ∃ c1 c2 stored,
      EntityCache.new.register_entity exESub "A" = .ok c1 ∧
      c1.register_entity (Entity.init .base 1 [] [] 1) "B" = .ok c2 ∧
      aFind exESub.identity c2.entities_by_identity = some stored ∧
      stored.cls = .base ∧
      (∀ sess m incl co out cg inv,
        c2.generate_entities sess (.sub m) incl co = .ok (out, cg, inv) →
        exESub.identity ∉ identsOf out) :=
  merge_demotes_subclass exEProc exENamed EntityCache.new exESub
    (Entity.init .base 1 [] [] 1) "A" "B" 0
    (fun i e h => by simp [EntityCache.new, aFind] at h) rfl rfl rfl

end Rekall
